import Mathlib

namespace StarsCreator

/-! ### Python string primitives

The source program is Python (`stars_creator.py`); its lines and substrings
are modelled as `List Char` over the ASCII range, and the Python string
operations the script uses are embedded below. -/

/-- Python whitespace: the character set stripped by `str.strip()` with no
argument. -/
def isPySpace (c : Char) : Bool :=
  c = ' ' || c = '\t' || c = '\n' || c = '\x0d' || c = '\x0b' || c = '\x0c'

/-- ASCII decimal digit test; Python `str.isdigit` restricted to ASCII
(code points 48-57). -/
def isPyDigit (c : Char) : Bool := 48 ≤ c.toNat && c.toNat ≤ 57

/-- Python `s.isdigit()`: `s` is nonempty and consists of digits only. -/
def pyIsdigit (s : List Char) : Bool := !s.isEmpty && s.all isPyDigit

/-- Python `s.lstrip(chars)`: remove leading characters belonging to `cs`. -/
def pyLstrip (cs : List Char) (s : List Char) : List Char :=
  s.dropWhile (fun c => cs.contains c)

/-- Python `s.strip(chars)`: remove leading and trailing characters
belonging to `cs`. -/
def pyStrip (cs : List Char) (s : List Char) : List Char :=
  ((pyLstrip cs s).reverse.dropWhile (fun c => cs.contains c)).reverse

/-- Python `s.strip()` with no argument: strip whitespace from both ends. -/
def stripWs (s : List Char) : List Char :=
  ((s.dropWhile isPySpace).reverse.dropWhile isPySpace).reverse

/-- Numeric value of a decimal digit string, most significant digit first. -/
def digitsToNat (ds : List Char) : Nat :=
  ds.foldl (fun a c => 10 * a + (c.toNat - 48)) 0

/-- Sign-and-digits part of Python `int()`: a bare digit string, or a
single `-`/`+` sign followed by a digit string; anything else is a
`ValueError`. -/
def pyIntSigned (t : List Char) : Option Int :=
  if pyIsdigit t then some ((digitsToNat t : Int))
  else
    match t with
    | [] => none
    | c :: ds =>
      if c = '-' then (if pyIsdigit ds then some (-(digitsToNat ds : Int)) else none)
      else if c = '+' then (if pyIsdigit ds then some ((digitsToNat ds : Int)) else none)
      else none

/-- Python `int(s)` on ASCII input: optional surrounding whitespace, then an
optional single sign, then one or more digits; `none` models the
`ValueError` raised on any other shape. -/
def pyInt (s : List Char) : Option Int := pyIntSigned (stripWs s)

/-- Decimal digit rendering loop; the fuel argument bounds recursion depth. -/
def natDecAux : Nat → Nat → List Char → List Char
  | 0, _, acc => acc
  | fuel + 1, n, acc =>
    if n < 10 then Char.ofNat (48 + n) :: acc
    else natDecAux fuel (n / 10) (Char.ofNat (48 + n % 10) :: acc)

/-- Decimal rendering of a natural number, as Python `str` on a `int ≥ 0`. -/
def natDec (n : Nat) : List Char := natDecAux (n + 1) n []

/-- Python `str(n)` for an `int`: a minus sign followed by the digits when
negative, the digits alone otherwise. -/
def intStr (n : Int) : List Char :=
  if n < 0 then '-' :: natDec n.natAbs else natDec n.natAbs

/-- Python `s.zfill(w)`: left-pad with zeros up to width `w`, inserting the
padding after a leading sign when one is present. -/
def pyZfill (w : Nat) (s : List Char) : List Char :=
  match s with
  | [] => List.replicate w '0'
  | c :: rest =>
    if c = '-' ∨ c = '+' then c :: (List.replicate (w - s.length) '0' ++ rest)
    else List.replicate (w - s.length) '0' ++ s

/-- Python `pat in s` substring containment test. -/
def isSubstring (pat : List Char) : List Char → Bool
  | [] => pat.isEmpty
  | c :: rest => pat.isPrefixOf (c :: rest) || isSubstring pat rest

/-- Python `line[start:stop]` slicing for nonnegative bounds: out-of-range
bounds clamp, a short line yields a short (possibly empty) slice. -/
def pySlice (s : List Char) (start stop : Nat) : List Char :=
  (s.take stop).drop start

/-- Python `s.lower()` on ASCII input. -/
def pyLower (s : List Char) : List Char :=
  s.map (fun c => if 'A' ≤ c && c ≤ 'Z' then Char.ofNat (c.toNat + 32) else c)

/-! ### Python exceptions

Each constructor corresponds to one raise site reachable from the embedded
code. -/

/-- Exceptions the embedded fragments of `stars_creator.py` can raise. -/
inductive PyErr where
  /-- The `ValueError` raised by `LineParser.parse_line` for a key that is
  not in `LINE_FORMATS`. -/
  | unknownFormat (key : String)
  /-- The `ValueError` raised by `int()` on an invalid literal. -/
  | intConv
  /-- The `IndexError` raised by indexing a too-short string or list. -/
  | indexError
  /-- The `ValueError` raised by `dateutil.parser.parse` on an unparsable
  date string. -/
  | dateParse
deriving DecidableEq, Repr

/-! ### The parsed-record dictionary

`parse_line` builds a Python `dict` whose keys are the fixed field names of
the layout tables plus `fmv`/`smv`; the keys are embedded as an enumerated
type and the heterogeneous values (`str` and `int`) as a small sum. -/

/-- The `dict` keys used by `LineParser`: the union of the field names of
both layouts plus the derived keys `fmv` and `smv`. -/
inductive FieldKey where
  | di | ri | ms | fsc | niin | ui | qty | doc_no | tec | dmd | sig | fc
  | cog | prj | pri | adv | tn | fy | mv | rmks
  | acrn | jon | exp | occ | gl | cr_db
  | fmv | smv
deriving DecidableEq, Repr

/-- A Python value stored in the parsed-record dictionary. -/
inductive PyVal where
  | str (s : List Char)
  | int (n : Int)
deriving DecidableEq, Repr

/-- The parsed-record dictionary, insertion ordered; keys are unique on all
reachable values. -/
abbrev PyDict := List (FieldKey × PyVal)

/-- Python `d[k]` lookup (first matching key). -/
def dictGet (d : PyDict) (k : FieldKey) : Option PyVal :=
  match d with
  | [] => none
  | (k', v) :: rest => if k' = k then some v else dictGet rest k

/-- String-valued lookup; `parse_line` only ever stores strings under the
layout field names and every key read by the transformer is present, so the
default empty string (matching Python `d.get(k, "")`) is never produced on
reachable inputs. -/
def getStr (d : PyDict) (k : FieldKey) : List Char :=
  match dictGet d k with
  | some (.str s) => s
  | _ => []

/-- Python `parsed_data.get("fmv", 0)` as used by `create_stars`. -/
def getFmv (d : PyDict) : Int :=
  match dictGet d .fmv with
  | some (.int n) => n
  | _ => 0

/-! ### Layout Registry (`LineParser.LINE_FORMATS`) -/

/-- One field spec of a layout: a single half-open column range, or an
ordered list of ranges whose slices are concatenated. -/
inductive FieldSpec where
  | single (start stop : Nat)
  | multi (segs : List (Nat × Nat))
deriving DecidableEq, Repr

/-- The `X0A` (detail) layout of `LineParser.LINE_FORMATS`. -/
def X0A_FORMAT : List (FieldKey × FieldSpec) :=
  [(.di, .single 6 9), (.ri, .single 12 15), (.ms, .single 18 19),
   (.fsc, .single 24 28), (.niin, .multi [(30, 32), (33, 36), (37, 41)]),
   (.ui, .single 44 46), (.qty, .single 50 55), (.doc_no, .single 57 71),
   (.tec, .single 73 77), (.dmd, .single 80 81), (.sig, .single 86 87),
   (.fc, .single 91 93), (.cog, .single 96 98), (.prj, .single 101 104),
   (.pri, .single 107 109), (.adv, .single 113 115), (.tn, .single 118 121),
   (.fy, .single 127 128), (.mv, .multi [(134, 142), (143, 145)]),
   (.rmks, .single 148 163)]

/-- The `B1N` (transaction) layout of `LineParser.LINE_FORMATS`. -/
def B1N_FORMAT : List (FieldKey × FieldSpec) :=
  [(.di, .single 6 9), (.doc_no, .single 12 26), (.acrn, .single 32 34),
   (.jon, .single 38 49), (.exp, .single 54 55), (.occ, .single 62 65),
   (.mv, .single 72 83), (.gl, .single 89 92), (.cr_db, .single 98 99),
   (.fy, .single 103 104), (.qty, .single 110 115), (.ui, .single 117 119),
   (.tn, .single 121 124), (.cog, .single 126 128), (.fsc, .single 130 134),
   (.niin, .single 135 144)]

/-- The two format keys of the registry, as the strings used in the source. -/
def fmtX0A : String := "X0A"

/-- The transaction format key. -/
def fmtB1N : String := "B1N"

/-- The `LINE_FORMATS` registry: format key to layout table. -/
def LINE_FORMATS : List (String × List (FieldKey × FieldSpec)) :=
  [(fmtX0A, X0A_FORMAT), (fmtB1N, B1N_FORMAT)]

/-- Association-list lookup used for the registry. -/
def lookupFmt (d : List (String × List (FieldKey × FieldSpec))) (k : String) :
    Option (List (FieldKey × FieldSpec)) :=
  match d with
  | [] => none
  | (k', v) :: rest => if k' = k then some v else lookupFmt rest k

/-- Extraction of one field of a layout from a raw line: a single slice, or
the concatenation of the slices of a multi-segment spec. -/
def extractField (line : List Char) : FieldSpec → List Char
  | .single a b => pySlice line a b
  | .multi segs => (segs.map (fun p => pySlice line p.1 p.2)).foldr (· ++ ·) []

/-! ### Money Value Codec

The two monetary conversions of `LineParser.parse_line`, lines 393-397 of
the source, factored out per format key. -/

/-- Detail-format (`X0A`) monetary conversion:
`abs(int(mv_raw.strip())) if mv_raw.strip().lstrip("-").isdigit() else 0`.
The digit guard strips every leading minus sign, so it can accept strings
such as `--5` on which `int()` then raises `ValueError`. -/
def codeDetailFmv (mv_raw : List Char) : Except PyErr Int :=
  if pyIsdigit (pyLstrip ['-'] (stripWs mv_raw)) then
    match pyInt (stripWs mv_raw) with
    | some n => .ok ((n.natAbs : Int))
    | none => .error .intConv
  else .ok 0

/-- Transaction-format (`B1N`) monetary conversion:
`abs(int(mv_raw.lstrip("0"))) if mv_raw.strip("-").lstrip("0").isdigit() else 0`.
The guard strips minus signs from both ends before stripping zeros, while
the converted string only has leading zeros stripped, so the guard can
accept strings on which `int()` then raises `ValueError` (for example a
trailing minus). -/
def codeTransFmv (mv_raw : List Char) : Except PyErr Int :=
  if pyIsdigit (pyLstrip ['0'] (pyStrip ['-'] mv_raw)) then
    match pyInt (pyLstrip ['0'] mv_raw) with
    | some n => .ok ((n.natAbs : Int))
    | none => .error .intConv
  else .ok 0

/-! ### The Money Value Codec as the specification words it

These two functions transcribe the codec rules of claim C5 (spec §4.3)
literally, to be compared with the code-derived `codeDetailFmv` and
`codeTransFmv` above. -/

/-- Claim C5's detail-format rule, transcribed from the specification's
words: the raw substring is stripped of whitespace; if the stripped value,
after allowing a single leading minus, consists only of digits, its
absolute integer value is the magnitude, else the magnitude is zero. -/
def specDetailMag (mv_raw : List Char) : Nat :=
  match stripWs mv_raw with
  | '-' :: ds => if pyIsdigit ds then digitsToNat ds else 0
  | ds => if pyIsdigit ds then digitsToNat ds else 0

/-- Claim C5's transaction-format rule, transcribed from the
specification's words: leading zeros are stripped, then any leading minus;
if the remainder is all digits the magnitude is the absolute integer value
of the zero-stripped string, else it is zero. -/
def specTransMag (mv_raw : List Char) : Nat :=
  let z := pyLstrip ['0'] mv_raw
  let r := match z with
    | '-' :: ds => ds
    | ds => ds
  if pyIsdigit r then digitsToNat r else 0

/-- Number of leading minus signs of a string. -/
def leadMinus (s : List Char) : Nat := (s.takeWhile (fun c => c = '-')).length

/-- Number of trailing minus signs of a string. -/
def trailMinus (s : List Char) : Nat := leadMinus s.reverse

/-- Amended detail-format codec rule: the digit guard strips every leading
minus sign (not just one); when the remainder is a nonempty digit string
the magnitude is its value, except that integer conversion raises when more
than one minus sign was stripped; when the guard fails the magnitude is
zero. -/
def amendedDetailFmv (mv_raw : List Char) : Except PyErr Int :=
  let t := stripWs mv_raw
  let ds := t.dropWhile (fun c => c = '-')
  if pyIsdigit ds then
    if leadMinus t ≤ 1 then .ok ((digitsToNat ds : Int)) else .error .intConv
  else .ok 0

/-- Amended transaction-format codec rule: the guard strips minus signs
from both ends first and leading zeros second; when the remaining digit
core is nonempty the magnitude is the core's value provided the raw
substring carries at most one leading minus and no trailing one, and
integer conversion raises otherwise; when the guard fails the magnitude is
zero. -/
def amendedTransFmv (mv_raw : List Char) : Except PyErr Int :=
  let ds := pyLstrip ['0'] (pyStrip ['-'] mv_raw)
  if pyIsdigit ds then
    if leadMinus mv_raw ≤ 1 && trailMinus mv_raw = 0 then .ok ((digitsToNat ds : Int))
    else .error .intConv
  else .ok 0

/-! ### Fixed-Width Parser (`LineParser.parse_line`) -/

/-- Embedding of `LineParser.parse_line`: slice the line per the layout of
`format_key` (raising `ValueError` for an unknown key), then attach the
monetary fields `fmv` (and, for `X0A`, `smv = str(fmv).zfill(10)`). -/
def parse_line (line : List Char) (format_key : String) : Except PyErr PyDict :=
  match lookupFmt LINE_FORMATS format_key with
  | none => .error (.unknownFormat format_key)
  | some slices =>
    let parsed : PyDict := slices.map (fun kv => (kv.1, PyVal.str (extractField line kv.2)))
    let mv_raw := getStr parsed .mv
    if format_key = fmtX0A then
      match codeDetailFmv mv_raw with
      | .error e => .error e
      | .ok fmv => .ok (parsed ++ [(.fmv, .int fmv), (.smv, .str (pyZfill 10 (intStr fmv)))])
    else if format_key = fmtB1N then
      match codeTransFmv mv_raw with
      | .error e => .error e
      | .ok fmv => .ok (parsed ++ [(.fmv, .int fmv)])
    else .ok parsed

/-! ### Calendar model (`datetime.date`, `datetime.datetime`, `dateutil`)

The script compares values of two distinct Python types: `datetime.date`
(returned by the `get_last_day_of_*` helpers) and `datetime.datetime`
(returned by `dateutil.parser.parse`). Both are embedded, together with
Python's equality semantics between them. -/

/-- Python `datetime.date`. -/
structure PyDate where
  year : Nat
  month : Nat
  day : Nat
deriving DecidableEq, Repr

/-- Python `datetime.datetime` (microseconds and time zones are never used
by the script and are omitted). -/
structure PyDateTime where
  year : Nat
  month : Nat
  day : Nat
  hour : Nat
  minute : Nat
  second : Nat
deriving DecidableEq, Repr

/-- Gregorian leap-year rule, as implemented by the `datetime` module. -/
def isLeapYear (y : Nat) : Bool := (y % 4 = 0 && y % 100 ≠ 0) || y % 400 = 0

/-- Number of days of month `m` of year `y`. -/
def daysInMonth (y m : Nat) : Nat :=
  if m = 2 then (if isLeapYear y then 29 else 28)
  else if m = 4 || m = 6 || m = 9 || m = 11 then 30 else 31

/-- `Validator.get_last_day_of_month`: the first of the month plus one
month minus one day (via `relativedelta`), i.e. the last day of the
current month, returned as a `date`. -/
def get_last_day_of_month (d : PyDate) : PyDate :=
  ⟨d.year, d.month, daysInMonth d.year d.month⟩

/-- `Validator.get_last_day_of_previous_month`: the day before the first of
the current month (via `relativedelta(days=-1)`), returned as a `date`. -/
def get_last_day_of_previous_month (d : PyDate) : PyDate :=
  if d.month = 1 then ⟨d.year - 1, 12, 31⟩
  else ⟨d.year, d.month - 1, daysInMonth d.year (d.month - 1)⟩

/-- Python equality between a `datetime` and a plain `date`: per the
`datetime` module's documented semantics, `datetime.__eq__` (which wins the
dispatch because `datetime` subclasses `date`) returns `False` whenever the
other operand is a `date` that is not itself a `datetime`, so this mixed
comparison is constantly false regardless of the calendar day either value
represents. -/
def dtEqDate (_ : PyDateTime) (_ : PyDate) : Bool := false

/-- Python equality between two `datetime` values: structural. -/
def dtEqDt (a b : PyDateTime) : Bool := a = b

/-- Calendar-day agreement between a `datetime` and a `date`: the
comparison the validation check was evidently intended to make. -/
def sameCalendarDay (a : PyDateTime) (d : PyDate) : Bool :=
  a.year = d.year && a.month = d.month && a.day = d.day

/-! ### Validation Workflow (`Validator`) -/

/-- Normalised answer strings used by the interactive prompts. -/
def ansY : List Char := ['y']

/-- The negative answer string. -/
def ansN : List Char := ['n']

/-- `Validator.check_varparm_bordt`, reduced to the boolean `is_good` it
reports: `is_monthly` is the `"y"`/`"n"` string, `var_parm_bordt` and
`fin_tldt` are the `datetime` values produced by `parse_valfile`, and the
two `get_last_day_of_*` calls are applied to `date.today()`, passed here as
`today`. The source's chained comparison `a == b == c` is the conjunction
of the two adjacent comparisons. -/
def check_varparm_bordt (is_monthly : List Char) (var_parm_bordt fin_tldt : PyDateTime)
    (today : PyDate) : Bool :=
  (is_monthly = ansN && dtEqDate var_parm_bordt (get_last_day_of_previous_month today)) ||
  (is_monthly = ansY && dtEqDt var_parm_bordt fin_tldt &&
    dtEqDate fin_tldt (get_last_day_of_month today))

/-- `Validator.check_mrdt_bortecdt`, reduced to the boolean it reports. -/
def check_mrdt_bortecdt (material_request_tldt bor_tldt : PyDateTime) : Bool :=
  dtEqDt material_request_tldt bor_tldt

/-- `Validator.check_tl_no`, reduced to the boolean it reports; the chained
`a == b == c` is the conjunction of adjacent comparisons. -/
def check_tl_no (bor_tl_no fin_tl_no material_request_tl_no : List Char) : Bool :=
  bor_tl_no = fin_tl_no && fin_tl_no = material_request_tl_no

/-- Python `s.partition(":")[-1]`: everything after the first colon, or the
empty string when no colon occurs. -/
def afterColon : List Char → List Char
  | [] => []
  | c :: rest => if c = ':' then rest else afterColon rest

/-- Model of `dateutil.parser.parse`, restricted to the `YYYY-MM-DD` shape
the validation query produces (each fact is `cast(... as date)` rendered as
char, giving an ISO date); surrounding whitespace is tolerated, midnight is
the default time, and any other shape raises `ValueError`. -/
def duParse (s : List Char) : Except PyErr PyDateTime :=
  match stripWs s with
  | [y1, y2, y3, y4, h1, m1, m2, h2, d1, d2] =>
    if isPyDigit y1 && isPyDigit y2 && isPyDigit y3 && isPyDigit y4 &&
        h1 = '-' && isPyDigit m1 && isPyDigit m2 && h2 = '-' &&
        isPyDigit d1 && isPyDigit d2 then
      let y := digitsToNat [y1, y2, y3, y4]
      let m := digitsToNat [m1, m2]
      let d := digitsToNat [d1, d2]
      if 1 ≤ m && m ≤ 12 && 1 ≤ d && d ≤ daysInMonth y m then
        .ok ⟨y, m, d, 0, 0, 0⟩
      else .error .dateParse
    else .error .dateParse
  | _ => .error .dateParse

/-- Python `lst[i]` list indexing, raising `IndexError` past the end. -/
def pyIndexL {α : Type} (l : List α) (i : Nat) : Except PyErr α :=
  match l.get? i with
  | some x => .ok x
  | none => .error .indexError

/-- The ten validation facts returned by `Validator.parse_valfile`, in the
order of the returned tuple. -/
structure ValFacts where
  var_parm_bordt : PyDateTime
  bor_tldt : PyDateTime
  fin_tldt : PyDateTime
  material_request_tldt : PyDateTime
  bor_tl_no : List Char
  fin_tl_no : List Char
  material_request_tl_no : List Char
  bor_fy : List Char
  fin_fy : List Char
  material_request_fy : List Char
deriving DecidableEq, Repr

/-- Embedding of `Validator.parse_valfile`, as a function of the lines of
the query-result file: each fact is taken from a fixed line number, the
value is the substring after the first colon of the stripped line, the four
date facts go through `dateutil` parsing, and the accesses happen in source
order so that the first out-of-range index or unparsable date raises. -/
def parse_valfile (val_lines : List (List Char)) : Except PyErr ValFacts := do
  let l0 ← pyIndexL val_lines 0
  let var_parm_bordt ← duParse (afterColon (stripWs l0))
  let l3 ← pyIndexL val_lines 3
  let bor_tldt ← duParse (afterColon (stripWs l3))
  let l6 ← pyIndexL val_lines 6
  let fin_tldt ← duParse (afterColon (stripWs l6))
  let l9 ← pyIndexL val_lines 9
  let material_request_tldt ← duParse (afterColon (stripWs l9))
  let l2 ← pyIndexL val_lines 2
  let l5 ← pyIndexL val_lines 5
  let l8 ← pyIndexL val_lines 8
  let l1 ← pyIndexL val_lines 1
  let l4 ← pyIndexL val_lines 4
  let l7 ← pyIndexL val_lines 7
  .ok ⟨var_parm_bordt, bor_tldt, fin_tldt, material_request_tldt,
    afterColon (stripWs l2), afterColon (stripWs l5), afterColon (stripWs l8),
    afterColon (stripWs l1), afterColon (stripWs l4), afterColon (stripWs l7)⟩

/-- First interactive answer that normalises (strip + lower) to `y` or `n`;
the confirmation loop of `val_parameters` keeps prompting until it gets
one. -/
def firstYN : List (List Char) → Option (List Char)
  | [] => none
  | a :: rest =>
    let na := pyLower (stripWs a)
    if na = ansY || na = ansN then some na else firstYN rest

/-- The interactive answers still pending once the optional monthly-closeout
prompt has consumed its answer: `val_parameters` asks for `is_monthly` only
when it was not supplied (Python `if not self.is_monthly`). -/
def restInputs (is_monthly : Option (List Char)) (inputs : List (List Char)) :
    List (List Char) :=
  match is_monthly with
  | some _ => inputs
  | none => inputs.drop 1

/-- The monthly flag actually used by the reference-date check: the supplied
one, or the normalised first interactive answer when none was supplied. -/
def monthlyFlag (is_monthly : Option (List Char)) (inputs : List (List Char)) :
    List Char :=
  match is_monthly with
  | some m => m
  | none => pyLower (stripWs (inputs.headD []))

/-- Observable outcome of one `Validator.val_parameters` run: the three
reported check booleans and the returned gate decision (`none` models the
confirmation loop never receiving a valid `y`/`n` answer). -/
structure ValRun where
  bordt_check : Bool
  mrdt_check : Bool
  tlno_check : Bool
  decision : Option Bool
deriving DecidableEq, Repr

/-- Embedding of `Validator.val_parameters` downstream of the query
execution, as a function of the parsed facts, the configured `is_monthly`,
today's date, and the stream of interactive answers: report the three
checks, then return whether the first valid confirmation answer is `y`. -/
def val_parameters (is_monthly : Option (List Char)) (facts : ValFacts)
    (today : PyDate) (inputs : List (List Char)) : ValRun :=
  ⟨check_varparm_bordt (monthlyFlag is_monthly inputs) facts.var_parm_bordt
      facts.fin_tldt today,
   check_mrdt_bortecdt facts.material_request_tldt facts.bor_tldt,
   check_tl_no facts.bor_tl_no facts.fin_tl_no facts.material_request_tl_no,
   (firstYN (restInputs is_monthly inputs)).map (fun a => a = ansY)⟩

/-! ### Record Transformer and Output Assembler (`StarsFileCreator.create_stars`) -/

/-- The detail sub-type marker `X0A`. -/
def markX0A : List Char := ['X', '0', 'A']

/-- The detail sub-type marker `Z0A`. -/
def markZ0A : List Char := ['Z', '0', 'A']

/-- The transaction sub-type marker `B1N`. -/
def markB1N : List Char := ['B', '1', 'N']

/-- Classification condition of the detail branch of `create_stars`:
`("X0A" in line or "Z0A" in line) and len(line) == 182`. -/
def detailCond (line : List Char) : Bool :=
  (isSubstring markX0A line || isSubstring markZ0A line) && line.length = 182

/-- Classification condition of the transaction branch: `"B1N" in line`. -/
def b1nCond (line : List Char) : Bool := isSubstring markB1N line

/-- The 13-space string `create_stars` compares `fsc + niin` against to
select the short detail template. -/
def blank13 : List Char := List.replicate 13 ' '

/-- Detail-format output line assembly of `create_stars` (lines 569-594 of
the source): the short template replaces `fsc`/`niin` by `rmks` when both
are blank; literal runs of spaces are reproduced from the templates. Every
key read here is present in every `X0A` parse result, so the `getStr`
default never fires on reachable inputs. -/
def formatX0A (d : PyDict) : List Char :=
  if getStr d .fsc ++ getStr d .niin = blank13 then
    getStr d .di ++ getStr d .ri ++ getStr d .ms ++ getStr d .rmks ++
    getStr d .ui ++ getStr d .qty ++ getStr d .doc_no ++ List.replicate 3 ' ' ++
    getStr d .tec ++ getStr d .sig ++ getStr d .fc ++ [' '] ++
    getStr d .cog ++ getStr d .prj ++ getStr d .pri ++ List.replicate 3 ' ' ++
    getStr d .adv ++ getStr d .tn ++ getStr d .fy ++ getStr d .smv ++ ['\n']
  else
    getStr d .di ++ getStr d .ri ++ getStr d .ms ++ getStr d .fsc ++
    getStr d .niin ++ List.replicate 2 ' ' ++
    getStr d .ui ++ getStr d .qty ++ getStr d .doc_no ++ List.replicate 3 ' ' ++
    getStr d .tec ++ getStr d .sig ++ getStr d .fc ++ [' '] ++
    getStr d .cog ++ getStr d .prj ++ getStr d .pri ++ List.replicate 3 ' ' ++
    getStr d .adv ++ getStr d .tn ++ getStr d .fy ++ getStr d .smv ++ ['\n']

/-- Transaction-format output line assembly of `create_stars` (lines
601-628): the identifier is split into `di[:2]` and `di[2]` — the latter
raising `IndexError` when the parsed `di` field has fewer than three
characters — and the literal space runs of 36, 68, 10 and 79 characters are
reproduced from the template. -/
def formatB1N (d : PyDict) : Except PyErr (List Char) :=
  match (getStr d .di).get? 2 with
  | none => .error .indexError
  | some di2 =>
    .ok (((getStr d .di).take 2) ++ (" RSUPP   ".toList) ++ [di2] ++ getStr d .doc_no ++ [' '] ++
      getStr d .acrn ++ getStr d .jon ++ getStr d .exp ++ getStr d .mv ++
      getStr d .gl ++ getStr d .cr_db ++ [' '] ++ getStr d .fy ++
      List.replicate 36 ' ' ++ getStr d .qty ++ List.replicate 68 ' ' ++
      getStr d .cog ++ ['Y'] ++ List.replicate 10 ' ' ++ getStr d .niin ++
      List.replicate 79 ' ' ++ getStr d .tn ++ getStr d .fsc ++
      getStr d .ui ++ getStr d .occ ++ ['\n'])

/-- The detail pipeline applied to one classified line: parse with the
`X0A` layout, build the detail output line, and read off the magnitude
`parsed_data.get("fmv", 0)`. -/
def detailStep (line : List Char) : Except PyErr (Option (List Char × Int)) :=
  match parse_line line fmtX0A with
  | .error e => .error e
  | .ok d => .ok (some (formatX0A d, getFmv d))

/-- The transaction pipeline applied to one classified line. -/
def b1nStep (line : List Char) : Except PyErr (Option (List Char × Int)) :=
  match parse_line line fmtB1N with
  | .error e => .error e
  | .ok d =>
    match formatB1N d with
    | .error e => .error e
    | .ok fl => .ok (some (fl, getFmv d))

/-- One iteration of the `create_stars` loop body: classify the line (the
detail test first, then the transaction test), run the matching pipeline,
or skip the line (`none`) when neither matches. -/
def processLine (line : List Char) : Except PyErr (Option (List Char × Int)) :=
  if detailCond line then detailStep line
  else if b1nCond line then b1nStep line
  else .ok none

/-- The `create_stars` loop over the input lines, carrying the running
total and the accumulated output lines (header included). -/
def starsLoop (lines : List (List Char)) (total : Int) (out : List (List Char)) :
    Except PyErr (Int × List (List Char)) :=
  match lines with
  | [] => .ok (total, out)
  | line :: rest =>
    match processLine line with
    | .error e => .error e
    | .ok none => starsLoop rest total out
    | .ok (some (fl, m)) => starsLoop rest (total + m) (out ++ [fl])

/-- The header line of the output frame; `ts` stands for the
`datetime.now().strftime("%Y%m%d%H%M%S")` timestamp. -/
def headerOf (ts : List Char) : List Char :=
  ("HEADERRSUPPLY   ".toList) ++ ts ++ ['\n']

/-- The trailer line of the output frame, for a record count, a running
total and the three-character batch suffix `pid`. -/
def trailerOf (count : Nat) (total : Int) (pid : List Char) : List Char :=
  ("TRAILERSTARSFL   ".toList) ++ pyZfill 15 (intStr count) ++
    pyZfill 19 (intStr total) ++ ("stars".toList) ++ pid ++ ("r.txt".toList) ++ ['\n']

/-- Embedding of `StarsFileCreator.create_stars`, as a function of the
header timestamp, the lines read from the input report, and the batch
suffix `pid`; the result is the full list of lines written to the output
file (header, transformed lines in input order, trailer), or the first
exception raised while transforming a line. -/
def create_stars (ts : List Char) (original_lines : List (List Char))
    (pid : List Char) : Except PyErr (List (List Char)) :=
  match starsLoop original_lines 0 [headerOf ts] with
  | .error e => .error e
  | .ok (total, output_lines) =>
    .ok (output_lines ++ [trailerOf (output_lines.length - 1) total pid])

/-! ### Specification-level views of the transcode

These definitions restate, per input line, what one loop iteration
contributes; the lemmas below tie them to `starsLoop`. -/

/-- The formatted line and magnitude a line contributes, `none` when the
line is skipped or its transformation raises. -/
def matched (line : List Char) : Option (List Char × Int) :=
  match processLine line with
  | .ok (some p) => some p
  | _ => none

/-- The magnitude a matched line contributes to the running total. -/
def matchedMag (line : List Char) : Option Int := (matched line).map (·.2)

/-- Number of input lines that matched a known format. -/
def matchedCount (lines : List (List Char)) : Nat :=
  (lines.filterMap matched).length

/-- The order-sensitive sum of the matched lines' magnitudes. -/
def run_total (lines : List (List Char)) : Int :=
  (lines.filterMap matchedMag).sum

/-- The transformed output lines, in input order. -/
def outputsOf (lines : List (List Char)) : List (List Char) :=
  lines.filterMap (fun l => (matched l).map (·.1))

/-- A line's transformation raises no exception. -/
def lineOk (line : List Char) : Prop := ∃ r, processLine line = .ok r

/-! ### Views of the intermediate values of `parse_line` -/

/-- The raw slices of one layout applied to a line, before the monetary
fields are attached. -/
def parsedDict (fmt : List (FieldKey × FieldSpec)) (line : List Char) : PyDict :=
  fmt.map (fun kv => (kv.1, PyVal.str (extractField line kv.2)))

/-- The raw monetary substring of a detail line: the concatenation of the
two `mv` column ranges of the `X0A` layout. -/
def mvRawX0A (line : List Char) : List Char :=
  extractField line (FieldSpec.multi [(134, 142), (143, 145)])

/-- The raw monetary substring of a transaction line: the `mv` column range
of the `B1N` layout. -/
def mvRawB1N (line : List Char) : List Char :=
  extractField line (FieldSpec.single 72 83)

/-! ### Concrete inputs used by witnesses and counterexamples -/

/-- A line whose detail monetary substring strips to `--12345678`: the
digit guard accepts it after removing both minus signs, and `int()` then
raises. -/
def c1Line : List Char := List.replicate 134 ' ' ++ "--123456x78".toList

/-- A line matching no known format. -/
def garbageLine : List Char := "hello\n".toList

/-- A line that classifies as transaction format but whose `di` field has
fewer than three characters. -/
def shortB1NLine : List Char := "B1N\n".toList

/-- A fixed header timestamp for concrete runs. -/
def ts0 : List Char := "20260101120000".toList

/-- A fixed batch suffix for concrete runs. -/
def pid0 : List Char := "001".toList

/-- A valid 182-character detail line with both `mv` segments numeric. -/
def x0aLineW : List Char :=
  ("X0Adefghijklmnopqrstuvwxyzabcdefghijklmnopqrstuvwxyzabcdefghijklmnopqrst" ++
   "uvwxyzabcdefghijklmnopqrstuvwxyzabcdefghijklmnopqrstuvwxyzabcd01234567m3" ++
   "4pqrstuvwxyzabcdefghijklmnopqrstuvwxyz").toList

/-- A nine-character transaction line whose transformation succeeds with a
zero magnitude. -/
def b1nLineW : List Char := "B1NxxxABC".toList

/-- A 182-character line containing both a detail marker and the
transaction marker. -/
def bothMarksLine : List Char := "X0AB1N".toList ++ List.replicate 176 'q'

/-- The transaction-codec input on which claim C5's wording and the code
disagree. -/
def c5Trans : List Char := "0-5".toList

/-- The detail-codec input on which claim C5's wording predicts a zero
magnitude but the code raises. -/
def c5Detail : List Char := "--5".toList

/-- The trailer claim C3 predicts for an all-unrecognized input file: a
15-digit zero count followed by a 20-zero total, as literally written in
the claim. -/
def claimedTrailerC3 : List Char :=
  ("TRAILERSTARSFL   ".toList) ++ List.replicate 15 '0' ++ List.replicate 20 '0' ++
    ("stars".toList) ++ pid0 ++ ("r.txt".toList) ++ ['\n']

/-- A well-formed ten-line validation query result. -/
def valLines10 : List (List Char) :=
  [("VarParmDate: 2024-02-29").toList,
   ("borFY: 2024").toList,
   ("borTL: 123").toList,
   ("borTLdt: 2024-02-29").toList,
   ("finFY: 2024").toList,
   ("finTL: 123").toList,
   ("finTLdt: 2024-02-29").toList,
   ("mrFY: 2024").toList,
   ("mrTL: 123").toList,
   ("mrTLdt: 2024-02-29").toList]

/-- The facts `parse_valfile` extracts from `valLines10`. -/
def valFacts10 : ValFacts :=
  ⟨⟨2024, 2, 29, 0, 0, 0⟩, ⟨2024, 2, 29, 0, 0, 0⟩, ⟨2024, 2, 29, 0, 0, 0⟩,
   ⟨2024, 2, 29, 0, 0, 0⟩,
   (" 123").toList, (" 123").toList, (" 123").toList,
   (" 2024").toList, (" 2024").toList, (" 2024").toList⟩

/-! ### Basic facts about the string primitives -/

theorem dropWhile_eq_self_of_all {p : Char → Bool} {s : List Char}
    (h : ∀ c ∈ s, p c = false) : s.dropWhile p = s := by
  cases s with
  | nil => rfl
  | cons a l => simp [List.dropWhile_cons, h a (by simp)]

theorem stripWs_eq_self {s : List Char} (h : ∀ c ∈ s, isPySpace c = false) :
    stripWs s = s := by
  unfold stripWs
  rw [dropWhile_eq_self_of_all h,
    dropWhile_eq_self_of_all (fun c hc => h c (by simpa using hc)),
    List.reverse_reverse]

theorem isPySpace_eq_false_of_digit {c : Char} (h : isPyDigit c = true) :
    isPySpace c = false := by
  by_contra hc
  rw [Bool.not_eq_false] at hc
  have h6 : c = ' ' ∨ c = '\t' ∨ c = '\n' ∨ c = '\x0d' ∨ c = '\x0b' ∨ c = '\x0c' := by
    simpa [isPySpace, or_assoc] using hc
  rcases h6 with rfl | rfl | rfl | rfl | rfl | rfl <;> exact absurd h (by decide)

theorem digit_ne_minus {c : Char} (h : isPyDigit c = true) : c ≠ '-' := by
  rintro rfl; exact absurd h (by decide)

theorem digit_ne_plus {c : Char} (h : isPyDigit c = true) : c ≠ '+' := by
  rintro rfl; exact absurd h (by decide)

theorem pyIsdigit_eq_false_of_mem {c : Char} {s : List Char} (hc : c ∈ s)
    (h : isPyDigit c = false) : pyIsdigit s = false := by
  by_contra hs
  rw [Bool.not_eq_false] at hs
  simp only [pyIsdigit, Bool.and_eq_true] at hs
  exact absurd (List.all_eq_true.mp hs.2 c hc) (by simp [h])

theorem pyIsdigit_cons_minus {ds : List Char} : pyIsdigit ('-' :: ds) = false :=
  @pyIsdigit_eq_false_of_mem '-' ('-' :: ds) (by simp) (by decide)

theorem mem_digits_not_space {ds : List Char} (h : pyIsdigit ds = true) :
    ∀ c ∈ ds, isPySpace c = false := by
  simp only [pyIsdigit, Bool.and_eq_true] at h
  exact fun c hc => isPySpace_eq_false_of_digit (List.all_eq_true.mp h.2 c hc)

theorem pyIntSigned_of_digits {ds : List Char} (h : pyIsdigit ds = true) :
    pyIntSigned ds = some ((digitsToNat ds : Int)) := by
  unfold pyIntSigned
  rw [if_pos h]

theorem pyIntSigned_minus (ds : List Char) :
    pyIntSigned ('-' :: ds) =
      (if pyIsdigit ds = true then some (-(digitsToNat ds : Int)) else none) := by
  unfold pyIntSigned
  rw [if_neg (by simp [pyIsdigit_cons_minus])]
  simp

theorem pyIntSigned_digit_head {c : Char} {rest : List Char} (hc : isPyDigit c = true)
    (h : pyIsdigit (c :: rest) = false) : pyIntSigned (c :: rest) = none := by
  unfold pyIntSigned
  rw [if_neg (by simp [h])]
  simp [digit_ne_minus hc, digit_ne_plus hc]

theorem pyLstrip_singleton (c0 : Char) (s : List Char) :
    pyLstrip [c0] s = s.dropWhile (fun c => c = c0) := by
  unfold pyLstrip
  congr 1
  funext c
  simp [List.contains]

theorem takeWhile_eq_replicate (c0 : Char) (s : List Char) :
    s.takeWhile (fun c => c = c0) =
      List.replicate (s.takeWhile (fun c => c = c0)).length c0 :=
  List.eq_replicate_of_mem (fun b hb => by simpa using List.mem_takeWhile_imp hb)

theorem lstrip_decomp (c0 : Char) (s : List Char) :
    s = List.replicate (s.takeWhile (fun c => c = c0)).length c0 ++
        s.dropWhile (fun c => c = c0) := by
  conv_lhs => rw [← List.takeWhile_append_dropWhile (fun c => decide (c = c0)) s]
  rw [← takeWhile_eq_replicate]

theorem head_dropWhile_ne (c0 : Char) (s : List Char)
    (h : s.dropWhile (fun c => c = c0) ≠ []) :
    (s.dropWhile (fun c => c = c0)).head h ≠ c0 := by
  have := List.head_dropWhile_not (fun c => decide (c = c0)) s h
  simpa using this

theorem minus_decomp (s : List Char) :
    s = List.replicate (leadMinus s) '-' ++ s.dropWhile (fun c => c = '-') :=
  lstrip_decomp '-' s

theorem dropWhile_replicate_append (c0 : Char) (j : Nat) (u : List Char) :
    (List.replicate j c0 ++ u).dropWhile (fun c => c = c0) =
      u.dropWhile (fun c => c = c0) := by
  induction j with
  | zero => simp
  | succ n ih => simp [List.replicate_succ, List.dropWhile_cons, ih]

theorem takeWhile_replicate_append (c0 : Char) (a : Nat) {u : List Char}
    (hu : ∀ h : u ≠ [], u.head h ≠ c0) :
    (List.replicate a c0 ++ u).takeWhile (fun c => c = c0) = List.replicate a c0 := by
  induction a with
  | zero =>
    cases u with
    | nil => rfl
    | cons x xs =>
      have hx : x ≠ c0 := hu (by simp)
      simp [List.takeWhile_cons, hx]
  | succ n ih => simpa [List.replicate_succ, List.takeWhile_cons] using ih

theorem leadMinus_replicate_append (a : Nat) {u : List Char}
    (hu : ∀ h : u ≠ [], u.head h ≠ '-') :
    leadMinus (List.replicate a '-' ++ u) = a := by
  unfold leadMinus
  rw [takeWhile_replicate_append '-' a hu, List.length_replicate]

theorem digitsToNat_replicate_zero_append (j : Nat) (ds : List Char) :
    digitsToNat (List.replicate j '0' ++ ds) = digitsToNat ds := by
  induction j with
  | zero => rfl
  | succ n ih =>
    simpa [digitsToNat, List.replicate_succ, List.foldl_cons] using ih

/-! ### Equivalence of the detail codec with its amended description -/

theorem codeDetailFmv_eq_amended (mv : List Char) :
    codeDetailFmv mv = amendedDetailFmv mv := by
  unfold codeDetailFmv amendedDetailFmv pyInt
  rw [pyLstrip_singleton]
  by_cases hg : pyIsdigit ((stripWs mv).dropWhile (fun c => c = '-')) = true
  · rw [if_pos hg, if_pos hg]
    have hdec := minus_decomp (stripWs mv)
    set k := leadMinus (stripWs mv) with hk
    set ds := (stripWs mv).dropWhile (fun c => c = '-') with hds
    have hnospace : ∀ c ∈ stripWs mv, isPySpace c = false := by
      intro c hc
      rw [hdec] at hc
      rcases List.mem_append.mp hc with hrep | hmem
      · rw [(List.mem_replicate.mp hrep).2]; rfl
      · exact mem_digits_not_space hg c hmem
    rw [stripWs_eq_self hnospace, hdec]
    match k with
    | 0 =>
      rw [List.replicate_zero, List.nil_append]
      rw [pyIntSigned_of_digits hg]
      simp
    | 1 =>
      rw [List.replicate_one, List.singleton_append, pyIntSigned_minus, if_pos hg]
      simp
    | Nat.succ (Nat.succ k') =>
      rw [List.replicate_succ, List.cons_append, pyIntSigned_minus,
        if_neg (by
          simp only [List.replicate_succ, List.cons_append]
          simp [pyIsdigit_cons_minus])]
      simp
  · rw [if_neg hg, if_neg hg]

theorem pyStrip_singleton (c0 : Char) (s : List Char) :
    pyStrip [c0] s =
      ((s.dropWhile (fun c => c = c0)).reverse.dropWhile (fun c => c = c0)).reverse := by
  unfold pyStrip
  rw [pyLstrip_singleton]
  congr 2
  funext c
  simp [List.contains]

theorem head_cons_append_ne {c0 w0 : Char} {w' X : List Char} (hw0 : w0 ≠ c0)
    (h : (w0 :: w') ++ X ≠ []) : ((w0 :: w') ++ X).head h ≠ c0 := by
  show w0 ≠ c0
  exact hw0

theorem strip_minus_decomp {s : List Char} (hne : pyStrip ['-'] s ≠ []) :
    s = List.replicate (leadMinus s) '-' ++ pyStrip ['-'] s ++
        List.replicate (trailMinus s) '-' := by
  have hu : s = List.replicate (leadMinus s) '-' ++ s.dropWhile (fun c => c = '-') :=
    minus_decomp s
  have hw : pyStrip ['-'] s =
      ((s.dropWhile (fun c => c = '-')).reverse.dropWhile (fun c => c = '-')).reverse :=
    pyStrip_singleton '-' s
  set u := s.dropWhile (fun c => c = '-') with hu_def
  set w := u.reverse.dropWhile (fun c => c = '-') with hw_def
  have hw_ne : w ≠ [] := by
    intro h
    exact hne (by rw [hw, h, List.reverse_nil])
  have hwd : u.reverse = List.replicate (leadMinus u.reverse) '-' ++ w :=
    minus_decomp u.reverse
  have hu_eq : u = w.reverse ++ List.replicate (leadMinus u.reverse) '-' := by
    have h2 := congrArg List.reverse hwd
    rw [List.reverse_reverse, List.reverse_append, List.reverse_replicate] at h2
    exact h2
  obtain ⟨w0, w', hw_cons⟩ := List.exists_cons_of_ne_nil hw_ne
  have hw_head : w.head hw_ne = w0 := by
    have h5 : w.head? = some w0 := by rw [hw_cons]; rfl
    have h6 := List.head?_eq_head hw_ne
    rw [h5] at h6
    exact (Option.some.inj h6).symm
  have hw0 : w0 ≠ '-' := by
    have h3 := head_dropWhile_ne '-' u.reverse hw_ne
    rw [hw_head] at h3
    exact h3
  have hb : trailMinus s = leadMinus u.reverse := by
    unfold trailMinus
    have hs_rev : s.reverse =
        List.replicate (leadMinus u.reverse) '-' ++ (w ++ List.replicate (leadMinus s) '-') := by
      conv_lhs => rw [hu, List.reverse_append, List.reverse_replicate, hwd]
      rw [List.append_assoc]
    rw [hs_rev, hw_cons]
    exact leadMinus_replicate_append _ (head_cons_append_ne hw0)
  rw [hb, hw]
  conv_lhs => rw [hu, hu_eq]
  rw [List.append_assoc]

theorem pyIsdigit_replicate_zero_append {ds : List Char} (j : Nat)
    (h : pyIsdigit ds = true) : pyIsdigit (List.replicate j '0' ++ ds) = true := by
  simp only [pyIsdigit, Bool.and_eq_true] at h ⊢
  refine ⟨?_, ?_⟩
  · simp only [Bool.not_eq_true']
    exact List.isEmpty_eq_false.mpr
      (List.append_ne_nil_of_right_ne_nil _ (by
        intro h0
        rw [h0] at h
        exact absurd h.1 (by decide)))
  · rw [List.all_append, h.2]
    simp only [Bool.and_true]
    exact List.all_eq_true.mpr (fun c hc => by
      rw [(List.mem_replicate.mp hc).2]; decide)

theorem digits_head {ds : List Char} (h : pyIsdigit ds = true) :
    ∃ d0 ds', ds = d0 :: ds' ∧ isPyDigit d0 = true := by
  simp only [pyIsdigit, Bool.and_eq_true] at h
  obtain ⟨hempty, hall⟩ := h
  obtain ⟨d0, ds', rfl⟩ := List.exists_cons_of_ne_nil
    (by simpa [List.isEmpty_eq_false, Bool.not_eq_true'] using hempty)
  exact ⟨d0, ds', rfl, List.all_eq_true.mp hall d0 (by simp)⟩

/-! ### Equivalence of the transaction codec with its amended description -/

theorem codeTransFmv_eq_amended (mv : List Char) :
    codeTransFmv mv = amendedTransFmv mv := by
  unfold codeTransFmv amendedTransFmv pyInt
  by_cases hg : pyIsdigit (pyLstrip ['0'] (pyStrip ['-'] mv)) = true
  case neg => rw [if_neg hg, if_neg hg]
  case pos =>
  rw [if_pos hg, if_pos hg]
  set core := pyStrip ['-'] mv with hcore_def
  set ds := pyLstrip ['0'] core with hds_def
  obtain ⟨d0, ds', hds_cons, hd0⟩ := digits_head hg
  have hcore_ne : core ≠ [] := by
    intro h
    rw [hds_def, h] at hds_cons
    exact absurd hds_cons (by simp [pyLstrip])
  have hcore_decomp : core = List.replicate (core.takeWhile (fun c => c = '0')).length '0' ++ ds := by
    rw [hds_def, pyLstrip_singleton]
    exact lstrip_decomp '0' core
  set j := (core.takeWhile (fun c => c = '0')).length with hj_def
  have hd0_ne0 : d0 ≠ '0' := by
    have hds_ne : core.dropWhile (fun c => c = '0') ≠ [] := by
      rw [← pyLstrip_singleton, ← hds_def, hds_cons]
      simp
    have h3 := head_dropWhile_ne '0' core hds_ne
    have h5 : (core.dropWhile (fun c => c = '0')).head? = some d0 := by
      rw [← pyLstrip_singleton, ← hds_def, hds_cons]
      rfl
    have h6 := List.head?_eq_head hds_ne
    rw [h5] at h6
    rw [← Option.some.inj h6] at h3
    exact h3
  have hmv := @strip_minus_decomp mv hcore_ne
  rw [← hcore_def] at hmv
  set a := leadMinus mv with ha_def
  set b := trailMinus mv with hb_def
  -- not-a-space fact for every character of `mv`
  have hnospace : ∀ c ∈ mv, isPySpace c = false := by
    intro c hc
    rw [hmv] at hc
    rcases List.mem_append.mp hc with hc1 | hcb
    · rcases List.mem_append.mp hc1 with hca | hcc
      · rw [(List.mem_replicate.mp hca).2]; rfl
      · rw [hcore_decomp] at hcc
        rcases List.mem_append.mp hcc with hcz | hcd
        · rw [(List.mem_replicate.mp hcz).2]; rfl
        · exact mem_digits_not_space hg c hcd
    · rw [(List.mem_replicate.mp hcb).2]; rfl
  have hcore_dig : pyIsdigit core = true := by
    rw [hcore_decomp]; exact pyIsdigit_replicate_zero_append j hg
  have hval : digitsToNat core = digitsToNat ds := by
    rw [hcore_decomp]; exact digitsToNat_replicate_zero_append j ds
  by_cases hb0 : b = 0
  · by_cases ha1 : a ≤ 1
    · rw [if_pos (by rw [Bool.and_eq_true]; exact ⟨decide_eq_true ha1, decide_eq_true hb0⟩)]
      rcases Nat.le_one_iff_eq_zero_or_eq_one.mp ha1 with ha0 | ha0
      · -- no sign: the zero-stripped string is the digit core itself
        rw [ha0, hb0] at hmv
        simp only [List.replicate_zero, List.nil_append, List.append_nil] at hmv
        have hlift : pyLstrip ['0'] mv = ds := by
          rw [pyLstrip_singleton, hmv, hcore_decomp, dropWhile_replicate_append, hds_cons,
            List.dropWhile_cons, if_neg (by simp [hd0_ne0])]
        rw [hlift, stripWs_eq_self (mem_digits_not_space hg), pyIntSigned_of_digits hg]
        simp
      · -- a single leading minus: conversion reads the whole substring
        rw [ha0, hb0] at hmv
        simp only [List.replicate_one, List.replicate_zero, List.append_nil,
          List.singleton_append] at hmv
        have hlift : pyLstrip ['0'] mv = mv := by
          rw [pyLstrip_singleton, hmv, List.dropWhile_cons, if_neg (by decide)]
        rw [hlift, stripWs_eq_self hnospace, hmv, pyIntSigned_minus, if_pos hcore_dig]
        simp [hval]
    · -- at least two leading minus signs: ValueError on both sides
      rw [if_neg (by simp [ha1])]
      obtain ⟨k, hk⟩ : ∃ k, a = k + 2 := ⟨a - 2, by omega⟩
      rw [hk] at hmv
      have hmv2 : mv = '-' :: (List.replicate (k + 1) '-' ++ (core ++ List.replicate b '-')) := by
        rw [hmv, List.replicate_succ]
        simp [List.cons_append, List.append_assoc]
      have hlift : pyLstrip ['0'] mv = mv := by
        rw [pyLstrip_singleton, hmv2, List.dropWhile_cons, if_neg (by decide)]
      have hrest : pyIsdigit (List.replicate (k + 1) '-' ++ (core ++ List.replicate b '-')) = false :=
        pyIsdigit_eq_false_of_mem
          (List.mem_append.mpr (Or.inl (List.mem_replicate.mpr ⟨Nat.succ_ne_zero k, rfl⟩)))
          (by decide)
      rw [hlift, stripWs_eq_self hnospace, hmv2, pyIntSigned_minus, if_neg (by simp [hrest])]
  · -- a trailing minus: ValueError on both sides
    rw [if_neg (by simp [hb0])]
    by_cases ha0 : a = 0
    · rw [ha0] at hmv
      simp only [List.replicate_zero, List.nil_append] at hmv
      have hlift : pyLstrip ['0'] mv = ds ++ List.replicate b '-' := by
        rw [pyLstrip_singleton, hmv, hcore_decomp, List.append_assoc,
          dropWhile_replicate_append, hds_cons, List.cons_append, List.dropWhile_cons,
          if_neg (by simp [hd0_ne0]), ← List.cons_append, ← hds_cons]
      have harg_nospace : ∀ c ∈ ds ++ List.replicate b '-', isPySpace c = false := by
        intro c hc
        rcases List.mem_append.mp hc with h1 | h2
        · exact mem_digits_not_space hg c h1
        · rw [(List.mem_replicate.mp h2).2]; rfl
      have hbad : pyIsdigit (d0 :: (ds' ++ List.replicate b '-')) = false :=
        pyIsdigit_eq_false_of_mem
          (List.mem_cons_of_mem d0
            (List.mem_append.mpr (Or.inr (List.mem_replicate.mpr ⟨hb0, rfl⟩))))
          (by decide)
      rw [hlift, stripWs_eq_self harg_nospace, hds_cons, List.cons_append,
        pyIntSigned_digit_head hd0 hbad]
    · obtain ⟨k, hk⟩ : ∃ k, a = k + 1 := ⟨a - 1, by omega⟩
      rw [hk] at hmv
      have hmv2 : mv = '-' :: (List.replicate k '-' ++ (core ++ List.replicate b '-')) := by
        rw [hmv, List.replicate_succ]
        simp [List.cons_append, List.append_assoc]
      have hlift : pyLstrip ['0'] mv = mv := by
        rw [pyLstrip_singleton, hmv2, List.dropWhile_cons, if_neg (by decide)]
      have hrest : pyIsdigit (List.replicate k '-' ++ (core ++ List.replicate b '-')) = false :=
        pyIsdigit_eq_false_of_mem
          (List.mem_append.mpr (Or.inr (List.mem_append.mpr
            (Or.inr (List.mem_replicate.mpr ⟨hb0, rfl⟩)))))
          (by decide)
      rw [hlift, stripWs_eq_self hnospace, hmv2, pyIntSigned_minus, if_neg (by simp [hrest])]

/-! ### Decimal rendering facts used for the `smv` re-encoding -/

theorem length_dropWhile_le (p : Char → Bool) (s : List Char) :
    (s.dropWhile p).length ≤ s.length := by
  induction s with
  | nil => simp
  | cons a t ih =>
    rw [List.dropWhile_cons]
    by_cases h : p a = true
    · rw [if_pos h]; exact Nat.le_succ_of_le ih
    · rw [if_neg h]

theorem length_stripWs_le (s : List Char) : (stripWs s).length ≤ s.length := by
  unfold stripWs
  rw [List.length_reverse]
  calc ((s.dropWhile isPySpace).reverse.dropWhile isPySpace).length
      ≤ (s.dropWhile isPySpace).reverse.length := length_dropWhile_le _ _
    _ = (s.dropWhile isPySpace).length := List.length_reverse _
    _ ≤ s.length := length_dropWhile_le _ _

theorem digit_toNat_le {c : Char} (h : isPyDigit c = true) :
    48 ≤ c.toNat ∧ c.toNat ≤ 57 := by
  simpa [isPyDigit, Bool.and_eq_true] using h

theorem digitsToNat_lt {ds : List Char} (h : ds.all isPyDigit = true) :
    digitsToNat ds < 10 ^ ds.length := by
  suffices H : ∀ (t : List Char) (a : Nat), t.all isPyDigit = true →
      t.foldl (fun a c => 10 * a + (c.toNat - 48)) a < (a + 1) * 10 ^ t.length by
    simpa [digitsToNat] using H ds 0 h
  intro t
  induction t with
  | nil => intro a _; simp
  | cons c t ih =>
    intro a hall
    rw [List.all_cons, Bool.and_eq_true] at hall
    obtain ⟨h48, h57⟩ := digit_toNat_le hall.1
    rw [List.foldl_cons, List.length_cons]
    have h1 := ih (10 * a + (c.toNat - 48)) hall.2
    have h2 : (10 * a + (c.toNat - 48) + 1) * 10 ^ t.length ≤ (a + 1) * 10 ^ (t.length + 1) := by
      rw [pow_succ]
      calc (10 * a + (c.toNat - 48) + 1) * 10 ^ t.length
          ≤ ((a + 1) * 10) * 10 ^ t.length := Nat.mul_le_mul_right _ (by omega)
        _ = (a + 1) * (10 ^ t.length * 10) := by ring
    exact lt_of_lt_of_le h1 h2

theorem isPyDigit_ofNat {n : Nat} (h : n < 10) :
    isPyDigit (Char.ofNat (48 + n)) = true := by
  interval_cases n <;> decide

theorem natDecAux_all_digits :
    ∀ (fuel n : Nat) (acc : List Char), acc.all isPyDigit = true →
      (natDecAux fuel n acc).all isPyDigit = true := by
  intro fuel
  induction fuel with
  | zero => intro n acc h; exact h
  | succ f ih =>
    intro n acc h
    unfold natDecAux
    by_cases hn : n < 10
    · rw [if_pos hn, List.all_cons, Bool.and_eq_true]
      exact ⟨isPyDigit_ofNat hn, h⟩
    · rw [if_neg hn]
      exact ih _ _ (by
        rw [List.all_cons, Bool.and_eq_true]
        exact ⟨isPyDigit_ofNat (Nat.mod_lt _ (by omega)), h⟩)

theorem natDec_all_digits (n : Nat) : (natDec n).all isPyDigit = true :=
  natDecAux_all_digits (n + 1) n [] rfl

theorem natDecAux_length :
    ∀ (fuel n k : Nat) (acc : List Char), n < fuel → n < 10 ^ k → 1 ≤ k →
      (natDecAux fuel n acc).length ≤ k + acc.length := by
  intro fuel
  induction fuel with
  | zero => intro n k acc h; omega
  | succ f ih =>
    intro n k acc hf hk hk1
    unfold natDecAux
    by_cases hn : n < 10
    · rw [if_pos hn]
      simp only [List.length_cons]
      omega
    · rw [if_neg hn]
      have hk2 : 2 ≤ k := by
        by_contra hcon
        have hke : k = 1 := by omega
        rw [hke, pow_one] at hk
        omega
      have hlt : n / 10 < 10 ^ (k - 1) := by
        rw [Nat.div_lt_iff_lt_mul (by norm_num)]
        calc n < 10 ^ k := hk
          _ = 10 ^ (k - 1) * 10 := by
            conv_lhs => rw [show k = (k - 1) + 1 by omega]
            rw [pow_succ]
      have hfl : n / 10 < f := by
        have := Nat.div_lt_self (by omega : 0 < n) (by norm_num : 1 < 10)
        omega
      have h3 := ih (n / 10) (k - 1) (Char.ofNat (48 + n % 10) :: acc) hfl hlt (by omega)
      simp only [List.length_cons] at h3
      omega

theorem natDec_length {n k : Nat} (hk : n < 10 ^ k) (h1 : 1 ≤ k) :
    (natDec n).length ≤ k := by
  have := natDecAux_length (n + 1) n k [] (Nat.lt_succ_self n) hk h1
  simpa using this

theorem pyZfill_digits {s : List Char} (w : Nat) (h : s.all isPyDigit = true) :
    pyZfill w s = List.replicate (w - s.length) '0' ++ s := by
  cases s with
  | nil => simp [pyZfill]
  | cons c rest =>
    rw [List.all_cons, Bool.and_eq_true] at h
    show (if c = '-' ∨ c = '+' then c :: (List.replicate (w - (c :: rest).length) '0' ++ rest)
      else List.replicate (w - (c :: rest).length) '0' ++ c :: rest) =
      List.replicate (w - (c :: rest).length) '0' ++ c :: rest
    rw [if_neg]
    rintro (rfl | rfl) <;> exact absurd h.1 (by decide)

theorem pyZfill_digits_length {s : List Char} {w : Nat} (h : s.all isPyDigit = true)
    (hlen : s.length ≤ w) : (pyZfill w s).length = w := by
  rw [pyZfill_digits w h]
  simp
  omega

theorem pyZfill_digits_all {s : List Char} (w : Nat) (h : s.all isPyDigit = true) :
    (pyZfill w s).all isPyDigit = true := by
  rw [pyZfill_digits w h, List.all_append, h]
  rw [Bool.and_true]
  exact List.all_eq_true.mpr (fun c hc => by rw [(List.mem_replicate.mp hc).2]; decide)

theorem intStr_nonneg {n : Int} (h : 0 ≤ n) : intStr n = natDec n.natAbs := by
  unfold intStr
  rw [if_neg (by omega)]

theorem codeDetailFmv_ok_bound {mv : List Char} {n : Int}
    (h : codeDetailFmv mv = .ok n) (hlen : mv.length ≤ 10) :
    0 ≤ n ∧ n.natAbs < 10 ^ 10 := by
  rw [codeDetailFmv_eq_amended] at h
  unfold amendedDetailFmv at h
  by_cases hg : pyIsdigit ((stripWs mv).dropWhile (fun c => c = '-')) = true
  · rw [if_pos hg] at h
    by_cases ha : leadMinus (stripWs mv) ≤ 1
    · rw [if_pos ha] at h
      injection h with h1
      rw [← h1]
      refine ⟨Int.natCast_nonneg _, ?_⟩
      rw [Int.natAbs_ofNat]
      have hall : ((stripWs mv).dropWhile (fun c => c = '-')).all isPyDigit = true := by
        simp only [pyIsdigit, Bool.and_eq_true] at hg
        exact hg.2
      have hle : ((stripWs mv).dropWhile (fun c => c = '-')).length ≤ 10 :=
        le_trans (length_dropWhile_le _ _) (le_trans (length_stripWs_le mv) hlen)
      exact lt_of_lt_of_le (digitsToNat_lt hall) (Nat.pow_le_pow_right (by norm_num) hle)
    · rw [if_neg ha] at h
      exact absurd h (by simp)
  · rw [if_neg hg] at h
    injection h with h1
    rw [← h1]
    exact ⟨le_refl 0, by norm_num⟩

/-! ### Structural facts about `parse_line` and the per-line transform -/

theorem parse_line_X0A (line : List Char) :
    parse_line line fmtX0A =
      match codeDetailFmv (mvRawX0A line) with
      | .error e => .error e
      | .ok fmv => .ok (parsedDict X0A_FORMAT line ++
          [(.fmv, .int fmv), (.smv, .str (pyZfill 10 (intStr fmv)))]) := rfl

theorem parse_line_B1N (line : List Char) :
    parse_line line fmtB1N =
      match codeTransFmv (mvRawB1N line) with
      | .error e => .error e
      | .ok fmv => .ok (parsedDict B1N_FORMAT line ++ [(.fmv, .int fmv)]) := rfl

theorem getFmv_X0A (line : List Char) (v : Int) (s : List Char) :
    getFmv (parsedDict X0A_FORMAT line ++ [(.fmv, .int v), (.smv, .str s)]) = v := rfl

theorem getFmv_B1N (line : List Char) (v : Int) :
    getFmv (parsedDict B1N_FORMAT line ++ [(.fmv, .int v)]) = v := rfl

theorem dictGet_fmv_X0A (line : List Char) (v : Int) (s : List Char) :
    dictGet (parsedDict X0A_FORMAT line ++ [(.fmv, .int v), (.smv, .str s)]) .fmv =
      some (.int v) := rfl

theorem dictGet_fmv_B1N (line : List Char) (v : Int) :
    dictGet (parsedDict B1N_FORMAT line ++ [(.fmv, .int v)]) .fmv = some (.int v) := rfl

theorem getStr_di_B1N (line : List Char) (v : Int) :
    getStr (parsedDict B1N_FORMAT line ++ [(.fmv, .int v)]) .di = pySlice line 6 9 := rfl

theorem codeDetailFmv_cases (mv : List Char) :
    (∃ n : Int, codeDetailFmv mv = .ok n ∧ 0 ≤ n) ∨ codeDetailFmv mv = .error .intConv := by
  unfold codeDetailFmv
  by_cases hg : pyIsdigit (pyLstrip ['-'] (stripWs mv)) = true
  · rw [if_pos hg]
    cases hpi : pyInt (stripWs mv) with
    | some n => exact Or.inl ⟨(n.natAbs : Int), rfl, Int.natCast_nonneg _⟩
    | none => exact Or.inr rfl
  · rw [if_neg hg]
    exact Or.inl ⟨0, rfl, le_refl 0⟩

theorem codeTransFmv_cases (mv : List Char) :
    (∃ n : Int, codeTransFmv mv = .ok n ∧ 0 ≤ n) ∨ codeTransFmv mv = .error .intConv := by
  unfold codeTransFmv
  by_cases hg : pyIsdigit (pyLstrip ['0'] (pyStrip ['-'] mv)) = true
  · rw [if_pos hg]
    cases hpi : pyInt (pyLstrip ['0'] mv) with
    | some n => exact Or.inl ⟨(n.natAbs : Int), rfl, Int.natCast_nonneg _⟩
    | none => exact Or.inr rfl
  · rw [if_neg hg]
    exact Or.inl ⟨0, rfl, le_refl 0⟩

theorem codeDetailFmv_guard_false {mv : List Char}
    (h : pyIsdigit (pyLstrip ['-'] (stripWs mv)) = false) : codeDetailFmv mv = .ok 0 := by
  unfold codeDetailFmv
  rw [if_neg (by simp [h])]

theorem codeTransFmv_guard_false {mv : List Char}
    (h : pyIsdigit (pyLstrip ['0'] (pyStrip ['-'] mv)) = false) : codeTransFmv mv = .ok 0 := by
  unfold codeTransFmv
  rw [if_neg (by simp [h])]

theorem processLine_detail {line : List Char} (h : detailCond line = true) :
    processLine line = detailStep line := by
  unfold processLine
  rw [if_pos h]

theorem processLine_b1n {line : List Char} (h1 : detailCond line = false)
    (h2 : b1nCond line = true) : processLine line = b1nStep line := by
  unfold processLine
  rw [if_neg (by simp [h1]), if_pos h2]

theorem processLine_skip {line : List Char} (h1 : detailCond line = false)
    (h2 : b1nCond line = false) : processLine line = .ok none := by
  unfold processLine
  rw [if_neg (by simp [h1]), if_neg (by simp [h2])]

theorem pySlice_length (s : List Char) (a b : Nat) :
    (pySlice s a b).length = min b s.length - a := by
  unfold pySlice
  simp [List.length_drop]

theorem formatB1N_ok {d : PyDict} (h : 3 ≤ (getStr d .di).length) :
    ∃ fl, formatB1N d = .ok fl := by
  unfold formatB1N
  cases hdi : (getStr d .di).get? 2 with
  | none =>
    rw [List.get?_eq_get (by omega)] at hdi
    exact absurd hdi (by simp)
  | some c => exact ⟨_, rfl⟩

/-! ### Claim C1 -/

/-- C1 counterexample: for the known format key `X0A` there is a line on
whose content `parse_line` raises — the monetary substring strips to
`--12345678`, which passes the digit guard after all leading minus signs
are removed, and `int()` then raises `ValueError`. This refutes the claim
that `parse_line` never fails because of the line's content. -/
theorem c1_counterexample : parse_line c1Line fmtX0A = .error .intConv := rfl

/-- C1 (amended): for every line and every format key present in the layout
table, `parse_line` either returns a parsed record whose computed monetary
magnitude `fmv` is a non-negative integer, or raises the
integer-conversion `ValueError` on the monetary substring; no other
failure is possible for a known key. -/
theorem c1_parse_line_amended (line : List Char) (key : String)
    (hkey : key = fmtX0A ∨ key = fmtB1N) :
    (∃ d, parse_line line key = .ok d ∧
      ∃ n : Int, dictGet d .fmv = some (.int n) ∧ 0 ≤ n) ∨
    parse_line line key = .error .intConv := by
  rcases hkey with rfl | rfl
  · rw [parse_line_X0A]
    rcases codeDetailFmv_cases (mvRawX0A line) with ⟨n, hok, hn⟩ | herr
    · rw [hok]
      exact Or.inl ⟨_, rfl, n, dictGet_fmv_X0A line n _, hn⟩
    · rw [herr]
      exact Or.inr rfl
  · rw [parse_line_B1N]
    rcases codeTransFmv_cases (mvRawB1N line) with ⟨n, hok, hn⟩ | herr
    · rw [hok]
      exact Or.inl ⟨_, rfl, n, dictGet_fmv_B1N line n, hn⟩
    · rw [herr]
      exact Or.inr rfl

/-- C1 witness: the amended theorem applied at a concrete line and the
known key `X0A`. -/
theorem c1_witness :
    (∃ d, parse_line garbageLine fmtX0A = .ok d ∧
      ∃ n : Int, dictGet d .fmv = some (.int n) ∧ 0 ≤ n) ∨
    parse_line garbageLine fmtX0A = .error .intConv :=
  c1_parse_line_amended garbageLine fmtX0A (Or.inl rfl)

/-! ### Claim C4 -/

/-- C4: the transcode classifies a line as detail format exactly when it
contains `X0A` or `Z0A` and has length exactly 182; it classifies any
remaining line as transaction format when it contains `B1N`, regardless of
its length; and a line matching neither condition is silently skipped,
contributing nothing to the output lines, the record count, or the running
total of the `create_stars` loop. -/
theorem c4_classification (line : List Char) :
    (detailCond line = true ↔
      (isSubstring markX0A line = true ∨ isSubstring markZ0A line = true) ∧
        line.length = 182) ∧
    (b1nCond line = true ↔ isSubstring markB1N line = true) ∧
    (detailCond line = true → processLine line = detailStep line) ∧
    (detailCond line = false → b1nCond line = true → processLine line = b1nStep line) ∧
    (detailCond line = false → b1nCond line = false → processLine line = .ok none ∧
      ∀ (rest : List (List Char)) (t : Int) (out : List (List Char)),
        starsLoop (line :: rest) t out = starsLoop rest t out) := by
  refine ⟨?_, Iff.rfl, processLine_detail, processLine_b1n, ?_⟩
  · unfold detailCond
    simp [Bool.and_eq_true, Bool.or_eq_true]
  · intro h1 h2
    have hp := processLine_skip h1 h2
    refine ⟨hp, fun rest t out => ?_⟩
    show (match processLine line with
      | .error e => .error e
      | .ok none => starsLoop rest t out
      | .ok (some (fl, m)) => starsLoop rest (t + m) (out ++ [fl])) = starsLoop rest t out
    rw [hp]

/-- C4 witness: the skip clause applied at a concrete unclassified line. -/
theorem c4_witness :
    processLine garbageLine = .ok none ∧
    starsLoop [garbageLine] 0 [] = starsLoop [] 0 [] := by
  have h := (c4_classification garbageLine).2.2.2.2 rfl rfl
  exact ⟨h.1, h.2 [] 0 []⟩

/-! ### Claim C7 -/

/-- C7 counterexample: a line that classification sends to the transaction
branch but whose transformation raises `IndexError` — the line `B1N` plus
newline is shorter than nine characters, so its `di` field has fewer than
three characters and `parsed_data["di"][2]` fails. This refutes the claim
that no exception can escape from transforming a classified line. -/
theorem c7_counterexample :
    b1nCond shortB1NLine = true ∧ detailCond shortB1NLine = false ∧
    processLine shortB1NLine = .error .indexError := ⟨rfl, rfl, rfl⟩

/-- C7 (amended): transforming a classified line succeeds except in two
cases — a monetary substring that passes the digit guard but fails integer
conversion, and a transaction-format line shorter than nine characters,
whose identifier field cannot be indexed; in particular a malformed
monetary substring that fails the digit guard degrades to a zero magnitude
rather than aborting. -/
theorem c7_transform_amended (line : List Char) :
    (detailCond line = true → ∀ n : Int, codeDetailFmv (mvRawX0A line) = .ok n →
      processLine line = .ok (some (formatX0A (parsedDict X0A_FORMAT line ++
        [(.fmv, .int n), (.smv, .str (pyZfill 10 (intStr n)))]), n))) ∧
    (detailCond line = false → b1nCond line = true → 9 ≤ line.length →
      ∀ n : Int, codeTransFmv (mvRawB1N line) = .ok n →
      ∃ fl, processLine line = .ok (some (fl, n))) ∧
    (detailCond line = true →
      pyIsdigit (pyLstrip ['-'] (stripWs (mvRawX0A line))) = false →
      ∃ fl, processLine line = .ok (some (fl, 0))) ∧
    (detailCond line = false → b1nCond line = true → 9 ≤ line.length →
      pyIsdigit (pyLstrip ['0'] (pyStrip ['-'] (mvRawB1N line))) = false →
      ∃ fl, processLine line = .ok (some (fl, 0))) := by
  have hdetail : ∀ n : Int, codeDetailFmv (mvRawX0A line) = .ok n →
      detailCond line = true →
      processLine line = .ok (some (formatX0A (parsedDict X0A_FORMAT line ++
        [(.fmv, .int n), (.smv, .str (pyZfill 10 (intStr n)))]), n)) := by
    intro n hok hd
    rw [processLine_detail hd]
    unfold detailStep
    rw [parse_line_X0A, hok]
    dsimp only
    rw [getFmv_X0A]
  have hb1nstep : ∀ n : Int, codeTransFmv (mvRawB1N line) = .ok n →
      detailCond line = false → b1nCond line = true → 9 ≤ line.length →
      ∃ fl, processLine line = .ok (some (fl, n)) := by
    intro n hok hd hb hlen
    rw [processLine_b1n hd hb]
    unfold b1nStep
    rw [parse_line_B1N, hok]
    dsimp only
    have hdi : 3 ≤ (getStr (parsedDict B1N_FORMAT line ++ [(.fmv, .int n)]) .di).length := by
      rw [getStr_di_B1N, pySlice_length]
      omega
    obtain ⟨fl, hfl⟩ := formatB1N_ok hdi
    refine ⟨fl, ?_⟩
    rw [hfl, getFmv_B1N]
  refine ⟨fun hd n hok => hdetail n hok hd, fun hd hb hlen n hok => hb1nstep n hok hd hb hlen,
    ?_, ?_⟩
  · intro hd hg
    exact ⟨_, hdetail 0 (codeDetailFmv_guard_false hg) hd⟩
  · intro hd hb hlen hg
    exact hb1nstep 0 (codeTransFmv_guard_false hg) hd hb hlen

set_option maxRecDepth 10000 in
/-- C7 witness: the amended theorem applied at a concrete 182-character
detail line whose monetary field converts to 123456734. -/
theorem c7_witness :
    processLine x0aLineW = .ok (some (formatX0A (parsedDict X0A_FORMAT x0aLineW ++
      [(.fmv, .int 123456734), (.smv, .str (pyZfill 10 (intStr 123456734)))]),
      123456734)) :=
  (c7_transform_amended x0aLineW).1 (by decide) 123456734 (by rfl)

/-! ### Claim C10 -/

/-- C10: classification gives the detail format precedence — a line of
length exactly 182 containing a detail marker is processed by the detail
pipeline (`parse_line` with the `X0A` layout and the detail formatter) even
when it also contains the transaction marker `B1N`. -/
theorem c10_detail_precedence (line : List Char) (hlen : line.length = 182)
    (hmark : isSubstring markX0A line = true ∨ isSubstring markZ0A line = true)
    (_hb1n : isSubstring markB1N line = true) :
    processLine line = detailStep line := by
  apply processLine_detail
  unfold detailCond
  rcases hmark with h | h <;> simp [h, hlen]

set_option maxRecDepth 10000 in
/-- C10 witness: the theorem applied at a concrete 182-character line
containing both `X0A` and `B1N`. -/
theorem c10_witness : processLine bothMarksLine = detailStep bothMarksLine :=
  c10_detail_precedence bothMarksLine (by decide) (Or.inl (by decide)) (by decide)

/-! ### Claim C5 -/

/-- C5 counterexample: the codec rules as the claim words them disagree
with the code. On `0-5` the claim's transaction rule (strip leading zeros,
then a leading minus, check digits) yields magnitude 5, while the code
yields 0 because it strips minus signs from both ends before zeros; on
`--5` the claim's detail rule yields magnitude 0, while the code raises
`ValueError`. -/
theorem c5_counterexample :
    specTransMag c5Trans = 5 ∧ codeTransFmv c5Trans = .ok 0 ∧
    specDetailMag c5Detail = 0 ∧ codeDetailFmv c5Detail = .error .intConv :=
  ⟨rfl, rfl, rfl, rfl⟩

/-- C5 (amended): the detail codec strips whitespace, then every leading
minus sign; when the remainder is a nonempty digit string the magnitude is
its value, but integer conversion raises when more than one minus was
stripped; otherwise the magnitude is zero. The transaction codec's guard
strips minus signs from both ends and then leading zeros; when the
remaining digit core is nonempty the magnitude is the core's value
provided the raw substring has at most one leading minus and no trailing
one (integer conversion raises otherwise), else the magnitude is zero.
The detail magnitude is re-encoded by `str(...).zfill(10)`, which for any
raw substring of at most ten characters is a string of exactly ten
digits. -/
theorem c5_codec_amended (mv : List Char) :
    codeDetailFmv mv = amendedDetailFmv mv ∧
    codeTransFmv mv = amendedTransFmv mv ∧
    (∀ n : Int, codeDetailFmv mv = .ok n → mv.length ≤ 10 →
      (pyZfill 10 (intStr n)).length = 10 ∧
        (pyZfill 10 (intStr n)).all isPyDigit = true) := by
  refine ⟨codeDetailFmv_eq_amended mv, codeTransFmv_eq_amended mv, ?_⟩
  intro n hok hlen
  obtain ⟨hpos, hbound⟩ := codeDetailFmv_ok_bound hok hlen
  rw [intStr_nonneg hpos]
  exact ⟨pyZfill_digits_length (natDec_all_digits _)
      (natDec_length hbound (by norm_num)),
    pyZfill_digits_all _ (natDec_all_digits _)⟩

/-- C5 witness: the amended theorem applied at the concrete substring
` -42 `, whose detail magnitude is 42 and whose ten-digit re-encoding is
checked. -/
theorem c5_witness :
    codeDetailFmv (" -42 ".toList) = amendedDetailFmv (" -42 ".toList) ∧
    (pyZfill 10 (intStr 42)).length = 10 ∧
    (pyZfill 10 (intStr 42)).all isPyDigit = true :=
  ⟨(c5_codec_amended (" -42 ".toList)).1,
   (c5_codec_amended (" -42 ".toList)).2.2 42 (by rfl) (by decide)⟩

/-! ### The `create_stars` loop -/

theorem starsLoop_all_ok {lines : List (List Char)}
    (h : ∀ l ∈ lines, ∃ r, processLine l = Except.ok r) :
    ∀ (t : Int) (out : List (List Char)),
      starsLoop lines t out = .ok (t + run_total lines, out ++ outputsOf lines) := by
  induction lines with
  | nil =>
    intro t out
    simp [starsLoop, run_total, outputsOf]
  | cons line rest ih =>
    intro t out
    obtain ⟨r, hr⟩ := h line (by simp)
    show (match processLine line with
      | Except.error e => Except.error e
      | Except.ok none => starsLoop rest t out
      | Except.ok (some (fl, m)) => starsLoop rest (t + m) (out ++ [fl])) =
      Except.ok (t + run_total (line :: rest), out ++ outputsOf (line :: rest))
    cases r with
    | none =>
      rw [hr]
      dsimp only
      rw [ih (fun l hl => h l (by simp [hl])) t out]
      have hm : matched line = none := by unfold matched; rw [hr]
      simp [run_total, outputsOf, matchedMag, List.filterMap_cons, hm]
    | some p =>
      obtain ⟨fl, m⟩ := p
      rw [hr]
      dsimp only
      rw [ih (fun l hl => h l (by simp [hl])) (t + m) (out ++ [fl])]
      have hm : matched line = some (fl, m) := by unfold matched; rw [hr]
      simp [run_total, outputsOf, matchedMag, List.filterMap_cons, hm,
        List.append_assoc]
      omega

theorem starsLoop_ok_all {lines : List (List Char)} :
    ∀ {t : Int} {out : List (List Char)} {r},
      starsLoop lines t out = .ok r → ∀ l ∈ lines, ∃ pr, processLine l = Except.ok pr := by
  induction lines with
  | nil =>
    intro t out r h l hl
    simp at hl
  | cons line rest ih =>
    intro t out r h l hl
    unfold starsLoop at h
    cases hp : processLine line with
    | error e =>
      rw [hp] at h
      exact absurd h (by simp)
    | ok pr =>
      rw [hp] at h
      rcases List.mem_cons.mp hl with rfl | hl
      · exact ⟨pr, hp⟩
      · cases pr with
        | none => exact ih h l hl
        | some p =>
          obtain ⟨fl, m⟩ := p
          exact ih h l hl

theorem length_outputsOf (lines : List (List Char)) :
    (outputsOf lines).length = matchedCount lines := by
  unfold outputsOf matchedCount
  rw [← List.map_filterMap, List.length_map]

theorem create_stars_build {ts pid : List Char} {lines : List (List Char)}
    (hall : ∀ l ∈ lines, ∃ r, processLine l = Except.ok r) :
    create_stars ts lines pid = .ok (headerOf ts :: outputsOf lines ++
      [trailerOf (matchedCount lines) (run_total lines) pid]) := by
  unfold create_stars
  rw [starsLoop_all_ok hall 0 [headerOf ts]]
  have hlen : ([headerOf ts] ++ outputsOf lines).length - 1 = matchedCount lines := by
    rw [List.length_append, ← length_outputsOf lines]
    simp
  dsimp only
  rw [hlen]
  simp

theorem create_stars_ok_all {ts pid : List Char} {lines out : List (List Char)}
    (h : create_stars ts lines pid = .ok out) :
    ∀ l ∈ lines, ∃ r, processLine l = Except.ok r := by
  unfold create_stars at h
  cases hsl : starsLoop lines 0 [headerOf ts] with
  | error e =>
    rw [hsl] at h
    exact absurd h (by simp)
  | ok p => exact starsLoop_ok_all hsl

theorem create_stars_ok {ts pid : List Char} {lines out : List (List Char)}
    (h : create_stars ts lines pid = .ok out) :
    out = headerOf ts :: outputsOf lines ++
      [trailerOf (matchedCount lines) (run_total lines) pid] := by
  have hb := @create_stars_build ts pid lines (create_stars_ok_all h)
  rw [h] at hb
  exact Except.ok.inj hb

/-! ### Claim C3 -/

set_option maxRecDepth 4000 in
/-- C3 counterexample: a file containing only unrecognized lines yields a
trailer whose total field is `str(0).zfill(19)` — nineteen zeros — while
the claim writes the total as a twenty-zero string; the claimed trailer
therefore differs from the one the code produces. -/
theorem c3_counterexample :
    create_stars ts0 [garbageLine] pid0 =
      .ok [headerOf ts0, ("TRAILERSTARSFL   ".toList) ++ List.replicate 15 '0' ++
        List.replicate 19 '0' ++ ("stars".toList) ++ pid0 ++ ("r.txt".toList) ++ ['\n']] ∧
    ("TRAILERSTARSFL   ".toList) ++ List.replicate 15 '0' ++ List.replicate 19 '0' ++
        ("stars".toList) ++ pid0 ++ ("r.txt".toList) ++ ['\n'] ≠ claimedTrailerC3 := by
  constructor
  · rfl
  · decide

/-- C3 (amended): for every input file on which the transcode completes,
the output ends with a single trailer whose record count is exactly the
number of lines that matched a known format, zero-padded to 15 digits, and
whose total is the running total zero-padded to 19 digits; a file with
only unrecognized lines yields count `000000000000000` and a total of
nineteen zeros. -/
theorem c3_trailer (ts pid : List Char) (lines out : List (List Char))
    (h : create_stars ts lines pid = .ok out) :
    ∃ body, out = headerOf ts :: body ++
        [trailerOf (matchedCount lines) (run_total lines) pid] ∧
      body.length = matchedCount lines ∧
      trailerOf (matchedCount lines) (run_total lines) pid =
        ("TRAILERSTARSFL   ".toList) ++ pyZfill 15 (intStr (matchedCount lines)) ++
          pyZfill 19 (intStr (run_total lines)) ++ ("stars".toList) ++ pid ++
          ("r.txt".toList) ++ ['\n'] :=
  ⟨outputsOf lines, create_stars_ok h, length_outputsOf lines, rfl⟩

set_option maxRecDepth 4000 in
/-- C3 witness: the trailer theorem applied to the concrete
one-garbage-line file, whose trailer carries count zero and total zero. -/
theorem c3_witness :
    ∃ body, [headerOf ts0, trailerOf 0 0 pid0] = headerOf ts0 :: body ++
        [trailerOf (matchedCount [garbageLine]) (run_total [garbageLine]) pid0] ∧
      body.length = matchedCount [garbageLine] ∧
      trailerOf (matchedCount [garbageLine]) (run_total [garbageLine]) pid0 =
        ("TRAILERSTARSFL   ".toList) ++
          pyZfill 15 (intStr (matchedCount [garbageLine])) ++
          pyZfill 19 (intStr (run_total [garbageLine])) ++ ("stars".toList) ++ pid0 ++
          ("r.txt".toList) ++ ['\n'] :=
  c3_trailer ts0 pid0 [garbageLine] [headerOf ts0, trailerOf 0 0 pid0] (by rfl)

/-! ### Claim C6 -/

/-- C6: the trailer total is the sum, in file order, of the matched lines'
magnitudes, and the total is invariant under reordering the input lines:
for any permutation of a file on which the transcode completes, the
transcode of the permuted file completes with the same trailer. -/
theorem c6_total_order_invariance (ts pid : List Char)
    (l1 l2 o1 : List (List Char)) (hperm : l1.Perm l2)
    (h1 : create_stars ts l1 pid = .ok o1) :
    run_total l1 = (l1.filterMap matchedMag).sum ∧
    o1 = headerOf ts :: outputsOf l1 ++
      [trailerOf (matchedCount l1) (run_total l1) pid] ∧
    ∃ o2, create_stars ts l2 pid = .ok o2 ∧ run_total l2 = run_total l1 ∧
      o2 = headerOf ts :: outputsOf l2 ++
        [trailerOf (matchedCount l1) (run_total l1) pid] := by
  have hall1 := create_stars_ok_all h1
  have hall2 : ∀ l ∈ l2, ∃ r, processLine l = Except.ok r :=
    fun l hl => hall1 l (hperm.mem_iff.mpr hl)
  have htot : run_total l2 = run_total l1 :=
    (List.Perm.filterMap matchedMag hperm).sum_eq.symm
  have hcnt : matchedCount l2 = matchedCount l1 :=
    ((List.Perm.filterMap matched hperm).length_eq).symm
  refine ⟨rfl, create_stars_ok h1, ?_⟩
  refine ⟨_, create_stars_build hall2, htot, ?_⟩
  rw [htot, hcnt]

set_option maxRecDepth 10000 in
/-- C6 witness: the theorem applied to a concrete two-line file and its
swap; the detail line contributes magnitude 123456734 in either order. -/
theorem c6_witness :
    ∃ o2, create_stars ts0 [x0aLineW, garbageLine] pid0 = .ok o2 ∧
      run_total [x0aLineW, garbageLine] = run_total [garbageLine, x0aLineW] ∧
      o2 = headerOf ts0 :: outputsOf [x0aLineW, garbageLine] ++
        [trailerOf (matchedCount [garbageLine, x0aLineW])
          (run_total [garbageLine, x0aLineW]) pid0] := by
  have h1 : create_stars ts0 [garbageLine, x0aLineW] pid0 =
      .ok (headerOf ts0 :: outputsOf [garbageLine, x0aLineW] ++
        [trailerOf (matchedCount [garbageLine, x0aLineW])
          (run_total [garbageLine, x0aLineW]) pid0]) :=
    create_stars_build (by
      intro l hl
      rcases List.mem_cons.mp hl with rfl | hl
      · exact ⟨none, by rfl⟩
      · rcases List.mem_cons.mp hl with rfl | hl
        · exact ⟨_, by rfl⟩
        · simp at hl)
  exact (c6_total_order_invariance ts0 pid0 [garbageLine, x0aLineW]
    [x0aLineW, garbageLine] _ (List.Perm.swap _ _ _) h1).2.2

/-! ### Claim C2 -/

/-- C2 (code bug): the reference-date check can never report pass. The
reference date and the `fin_trnsmtl` transmittal date flow out of
`parse_valfile` as `datetime` values (`dateutil.parser.parse`), while both
`get_last_day_of_*` helpers return plain `date` values, and Python's
`datetime == date` comparison is always `False`; hence `is_good` is
constantly false — in particular for the failing input where the monthly
flag is `n`, today is 2024-03-15 and the parsed reference date is midnight
of 2024-02-29, the last calendar day of the previous month, where the
claim requires a pass. -/
theorem c2_bordt_check_never_passes :
    (∀ (m : List Char) (b f : PyDateTime) (t : PyDate),
      check_varparm_bordt m b f t = false) ∧
    check_varparm_bordt ansN ⟨2024, 2, 29, 0, 0, 0⟩ ⟨2024, 2, 29, 0, 0, 0⟩
      ⟨2024, 3, 15⟩ = false ∧
    get_last_day_of_previous_month ⟨2024, 3, 15⟩ = ⟨2024, 2, 29⟩ ∧
    sameCalendarDay ⟨2024, 2, 29, 0, 0, 0⟩
      (get_last_day_of_previous_month ⟨2024, 3, 15⟩) = true := by
  refine ⟨?_, rfl, rfl, rfl⟩
  intro m b f t
  unfold check_varparm_bordt dtEqDate
  simp

/-! ### Claim C8 -/

theorem except_bind_ok {α β : Type} {x : Except PyErr α} {f : α → Except PyErr β}
    {b : β} (h : (x >>= f) = .ok b) : ∃ a, x = .ok a ∧ f a = .ok b := by
  cases x with
  | error e => exact absurd h (by simp [Bind.bind, Except.bind])
  | ok a => exact ⟨a, rfl, by simpa [Bind.bind, Except.bind] using h⟩

theorem pyIndexL_ok {α : Type} {l : List α} {i : Nat} {x : α}
    (h : pyIndexL l i = .ok x) : l.get? i = some x := by
  unfold pyIndexL at h
  cases hg : l.get? i with
  | none =>
    rw [hg] at h
    exact absurd h (by simp)
  | some y =>
    rw [hg] at h
    dsimp only at h
    rw [Except.ok.inj h]

theorem getD_of_get? {α : Type} {l : List α} {i : Nat} {x d : α}
    (h : l.get? i = some x) : l.getD i d = x := by
  rw [List.getD_eq_getElem?_getD, ← List.get?_eq_getElem?, h]
  rfl

/-- C8: `parse_valfile` extracts the ten validation facts purely
positionally — whenever it succeeds, each fact is the post-colon substring
of the stripped line at its fixed index, with the four date facts parsed by
the date parser — and a result with fewer than ten lines, or an unparsable
date at one of the date positions, makes it raise rather than default. -/
theorem c8_parse_valfile (lines : List (List Char)) :
    (∀ facts, parse_valfile lines = .ok facts →
      10 ≤ lines.length ∧
      duParse (afterColon (stripWs (lines.getD 0 []))) = .ok facts.var_parm_bordt ∧
      facts.bor_fy = afterColon (stripWs (lines.getD 1 [])) ∧
      facts.bor_tl_no = afterColon (stripWs (lines.getD 2 [])) ∧
      duParse (afterColon (stripWs (lines.getD 3 []))) = .ok facts.bor_tldt ∧
      facts.fin_fy = afterColon (stripWs (lines.getD 4 [])) ∧
      facts.fin_tl_no = afterColon (stripWs (lines.getD 5 [])) ∧
      duParse (afterColon (stripWs (lines.getD 6 []))) = .ok facts.fin_tldt ∧
      facts.material_request_fy = afterColon (stripWs (lines.getD 7 [])) ∧
      facts.material_request_tl_no = afterColon (stripWs (lines.getD 8 [])) ∧
      duParse (afterColon (stripWs (lines.getD 9 []))) =
        .ok facts.material_request_tldt) ∧
    (lines.length < 10 → ∃ e, parse_valfile lines = .error e) ∧
    (∀ i, (i = 0 ∨ i = 3 ∨ i = 6 ∨ i = 9) →
      (∃ e, duParse (afterColon (stripWs (lines.getD i []))) = .error e) →
      ∃ e, parse_valfile lines = .error e) := by
  have ha : ∀ facts, parse_valfile lines = .ok facts →
      10 ≤ lines.length ∧
      duParse (afterColon (stripWs (lines.getD 0 []))) = .ok facts.var_parm_bordt ∧
      facts.bor_fy = afterColon (stripWs (lines.getD 1 [])) ∧
      facts.bor_tl_no = afterColon (stripWs (lines.getD 2 [])) ∧
      duParse (afterColon (stripWs (lines.getD 3 []))) = .ok facts.bor_tldt ∧
      facts.fin_fy = afterColon (stripWs (lines.getD 4 [])) ∧
      facts.fin_tl_no = afterColon (stripWs (lines.getD 5 [])) ∧
      duParse (afterColon (stripWs (lines.getD 6 []))) = .ok facts.fin_tldt ∧
      facts.material_request_fy = afterColon (stripWs (lines.getD 7 [])) ∧
      facts.material_request_tl_no = afterColon (stripWs (lines.getD 8 [])) ∧
      duParse (afterColon (stripWs (lines.getD 9 []))) =
        .ok facts.material_request_tldt := by
    intro facts h
    unfold parse_valfile at h
    obtain ⟨l0, hl0, h⟩ := except_bind_ok h
    obtain ⟨d0, hd0, h⟩ := except_bind_ok h
    obtain ⟨l3, hl3, h⟩ := except_bind_ok h
    obtain ⟨d3, hd3, h⟩ := except_bind_ok h
    obtain ⟨l6, hl6, h⟩ := except_bind_ok h
    obtain ⟨d6, hd6, h⟩ := except_bind_ok h
    obtain ⟨l9, hl9, h⟩ := except_bind_ok h
    obtain ⟨d9, hd9, h⟩ := except_bind_ok h
    obtain ⟨l2, hl2, h⟩ := except_bind_ok h
    obtain ⟨l5, hl5, h⟩ := except_bind_ok h
    obtain ⟨l8, hl8, h⟩ := except_bind_ok h
    obtain ⟨l1, hl1, h⟩ := except_bind_ok h
    obtain ⟨l4, hl4, h⟩ := except_bind_ok h
    obtain ⟨l7, hl7, h⟩ := except_bind_ok h
    have hfacts := Except.ok.inj h
    have hg0 := pyIndexL_ok hl0
    have hg1 := pyIndexL_ok hl1
    have hg2 := pyIndexL_ok hl2
    have hg3 := pyIndexL_ok hl3
    have hg4 := pyIndexL_ok hl4
    have hg5 := pyIndexL_ok hl5
    have hg6 := pyIndexL_ok hl6
    have hg7 := pyIndexL_ok hl7
    have hg8 := pyIndexL_ok hl8
    have hg9 := pyIndexL_ok hl9
    have hlen : 10 ≤ lines.length := by
      obtain ⟨h9, _⟩ := List.get?_eq_some.mp hg9
      omega
    rw [getD_of_get? hg0, getD_of_get? hg1, getD_of_get? hg2, getD_of_get? hg3,
      getD_of_get? hg4, getD_of_get? hg5, getD_of_get? hg6, getD_of_get? hg7,
      getD_of_get? hg8, getD_of_get? hg9]
    rw [← hfacts]
    exact ⟨hlen, hd0, rfl, rfl, hd3, rfl, rfl, hd6, rfl, rfl, hd9⟩
  refine ⟨ha, ?_, ?_⟩
  · intro hlen
    cases hres : parse_valfile lines with
    | error e => exact ⟨e, rfl⟩
    | ok facts => exact absurd ((ha facts hres).1) (by omega)
  · intro i hi hdup
    cases hres : parse_valfile lines with
    | error e => exact ⟨e, rfl⟩
    | ok facts =>
      obtain ⟨e, he⟩ := hdup
      obtain ⟨_, h0, _, _, h3, _, _, h6, _, _, h9⟩ := ha facts hres
      rcases hi with rfl | rfl | rfl | rfl
      · rw [h0] at he; exact absurd he (by simp)
      · rw [h3] at he; exact absurd he (by simp)
      · rw [h6] at he; exact absurd he (by simp)
      · rw [h9] at he; exact absurd he (by simp)

/-- C8 witness: the theorem applied at the empty result (fewer than ten
lines raises) and at a concrete well-formed ten-line result. -/
theorem c8_witness :
    (∃ e, parse_valfile [] = Except.error e) ∧
    duParse (afterColon (stripWs (valLines10.getD 0 []))) =
      .ok valFacts10.var_parm_bordt :=
  ⟨(c8_parse_valfile []).2.1 (by decide),
   ((c8_parse_valfile valLines10).1 valFacts10 (by rfl)).2.1⟩

/-! ### Claim C9 -/

theorem firstYN_mem {l : List (List Char)} {a : List Char} (h : firstYN l = some a) :
    a = ansY ∨ a = ansN := by
  induction l with
  | nil => exact absurd h (by simp [firstYN])
  | cons x xs ih =>
    unfold firstYN at h
    by_cases hc : (pyLower (stripWs x) = ansY || pyLower (stripWs x) = ansN) = true
    · rw [if_pos hc] at h
      rw [← Option.some.inj h]
      simpa using hc
    · rw [if_neg hc] at h
      exact ih h

/-- C9: `val_parameters` returns `true` exactly when the first valid
confirmation answer is `y`, and the returned decision is independent of the
parsed validation facts and of the current date — two runs with the same
configured monthly flag and the same interactive answers but arbitrarily
different facts produce the same decision, so the three check outcomes
never influence it. -/
theorem c9_gate_noninterference (is_monthly : Option (List Char))
    (facts facts' : ValFacts) (today today' : PyDate) (inputs : List (List Char)) :
    (val_parameters is_monthly facts today inputs).decision =
      (val_parameters is_monthly facts' today' inputs).decision ∧
    ((val_parameters is_monthly facts today inputs).decision = some true ↔
      firstYN (restInputs is_monthly inputs) = some ansY) := by
  refine ⟨rfl, ?_⟩
  have hdec : (val_parameters is_monthly facts today inputs).decision =
      (firstYN (restInputs is_monthly inputs)).map (fun a => decide (a = ansY)) := rfl
  rw [hdec]
  cases hfy : firstYN (restInputs is_monthly inputs) with
  | none => simp
  | some a =>
    rcases firstYN_mem hfy with rfl | rfl
    · simp
    · simp

end StarsCreator
